import Mathlib

/-!
# jwt-kit: claim assembly, token construction and token inspection

A shallow embedding of `cmd/root.go` of `bensolo-io/jwt-kit`.

* Go strings are modelled as Lean strings (sequences of characters; byte
  strings that are not valid UTF-8 are outside the model).  The only separators
  the program splits on are the one-byte characters `=` and `.`, for which
  splitting bytes and splitting characters agree.
* `map[string]interface{}` (`jwt.MapClaims`, `Token.Header`) is a finite map,
  represented by an association list and read through `MapClaims.get`; maps are
  compared by their entries (`MapClaims.Same`).  A JSON number is held as an
  integer both before encoding (`int64`) and after decoding (`float64`).
* The process-wide variable `config` is passed explicitly: a function that
  mutates it returns the new value.
* Everything the program obtains from outside `cmd/root.go` is a parameter:
  the clock readings, `time.ParseDuration`, the `gofakeit` oracle, the
  constants of package `internal/idp`, and the JSON and signature primitives.
* The functions of `github.com/golang-jwt/jwt` that the program calls
  (`New`, `SignedString`, `Parse` with the validation of `MapClaims`) follow
  release v3.2.2 of that package.
-/

namespace JwtKit

/-! ## Values stored in a claim map -/

/-- The dynamic values the program stores under `interface{}`: a `string`,
a `[]string`, or an integer (`int64`). -/
inductive Value where
  | str (s : String)
  | strs (l : List String)
  | int (n : Int)
  deriving DecidableEq, Repr

/-- The Go type `jwt.MapClaims`, that is `map[string]interface{}`. -/
abbrev MapClaims := List (String × Value)

namespace MapClaims

/-- The empty map, `make(map[string]interface{})`. -/
def empty : MapClaims := []

/-- The map index expression `m[k]`, with `none` for an absent key. -/
def get : MapClaims → String → Option Value
  | [], _ => none
  | (k', v) :: rest, k => if k' = k then some v else get rest k

/-- The entries of the map other than the one for `k`. -/
def del : MapClaims → String → MapClaims
  | [], _ => []
  | (k', v) :: rest, k => if k' = k then del rest k else (k', v) :: del rest k

/-- The map assignment `m[k] = v`: any previous entry for `k` is replaced. -/
def set (m : MapClaims) (k : String) (v : Value) : MapClaims :=
  (k, v) :: m.del k

/-- The keys present in the map. -/
def keys (m : MapClaims) : List String := m.map Prod.fst

/-- Two maps with the same entries (the representation order is immaterial). -/
def Same (m₁ m₂ : MapClaims) : Prop := ∀ k, m₁.get k = m₂.get k

end MapClaims

/-! ## Package `strings` and `fmt` -/

namespace strings

/-- The worker of `Split`: `cur` is the piece being read. -/
def splitAux (sep : Char) : List Char → List Char → List (List Char)
  | [], cur => [cur]
  | c :: cs, cur =>
    if c = sep then cur :: splitAux sep cs [] else splitAux sep cs (cur ++ [c])

/-- The Go call `strings.Split(s, sep)` for a one-character separator: the
substrings between the occurrences of `sep`, one more than there are
occurrences. -/
def Split (s : String) (sep : Char) : List String :=
  (splitAux sep s.data []).map String.mk

/-- The Go call `strings.Join(elems, sep)`. -/
def Join : List String → String → String
  | [], _ => ""
  | [a], _ => a
  | a :: b :: rest, sep => a ++ sep ++ Join (b :: rest) sep

end strings

/-- The message `fmt.Sprintf("arg '%s' must be in format key=value", c)`. -/
def argError (c : String) : String :=
  "arg '" ++ c ++ "' must be in format key=value"

/-- The message `fmt.Sprintf("invalid time duration '%s': %s", raw, err)`. -/
def durationError (raw detail : String) : String :=
  "invalid time duration '" ++ raw ++ "': " ++ detail

/-- The message `fmt.Errorf("claims validation errors: %s", joined)`. -/
def validationError (joined : String) : String :=
  "claims validation errors: " ++ joined

/-! ## Package `time` -/

/-- Nanoseconds in a second. -/
def nanosPerSecond : Int := 1000000000

/-- An instant: whole seconds since the Unix epoch and the nanoseconds within
that second (`0 ≤ nsec < 10^9`), as `time.Time` keeps them. -/
structure Time where
  sec : Int
  nsec : Int
  deriving DecidableEq, Repr

namespace Time

/-- The instant `ns` nanoseconds after the Unix epoch (what `time.Now()`
returns when the clock reads `ns`). -/
def ofUnixNano (ns : Int) : Time := ⟨ns / nanosPerSecond, ns % nanosPerSecond⟩

/-- The Go method `Time.Add`: the duration `d` (nanoseconds) is cut into whole
seconds and a remainder by truncating division, and the nanosecond field is
renormalised. -/
def Add (t : Time) (d : Int) : Time :=
  let dsec := Int.tdiv d nanosPerSecond
  let nsec := t.nsec + Int.tmod d nanosPerSecond
  if nsec ≥ nanosPerSecond then ⟨t.sec + (dsec + 1), nsec - nanosPerSecond⟩
  else if nsec < 0 then ⟨t.sec + (dsec - 1), nsec + nanosPerSecond⟩
  else ⟨t.sec + dsec, nsec⟩

/-- The Go method `Time.Unix`: seconds since the epoch. -/
def Unix (t : Time) : Int := t.sec

/-- The Go method `Time.UTC`: the same instant, location set to UTC. -/
def UTC (t : Time) : Time := t

end Time

/-! ## The program state and its environment -/

/-- The Go struct `Config`; `expDuration` is a `time.Duration` (nanoseconds). -/
structure Config where
  Claims : List String
  Scopes : List String
  Audiences : List String
  Exp : String
  Sub : String
  claimsMap : MapClaims
  expDuration : Int
  PrettyPrint : Bool

/-- What the program calls outside its own code while assembling claims:
`time.ParseDuration` (an error carries the text of `err`) and
`gofakeit.BeerName()` as a function of the seed given to `gofakeit.Seed`. -/
structure Env where
  ParseDuration : String → Except String Int
  BeerName : Int → String

/-- One iteration of the loop over `config.Claims` (lines 41-48): the state is
the list `errs` and the map `config.claimsMap`. -/
def claimStep (st : List String × MapClaims) (c : String) : List String × MapClaims :=
  let parts := strings.Split c '='
  if parts.length ≠ 2 then (st.1 ++ [argError c], st.2)
  else (st.1, st.2.set (parts.getD 0 "") (.str (parts.getD 1 "")))

/-- The loop `for _, c := range config.Claims`. -/
def claimLoop (claims : List String) (st : List String × MapClaims) : List String × MapClaims :=
  claims.foldl claimStep st

/-- The function `rootCmd.PersistentPreRunE`, run when the clock reads `now`
nanoseconds.  It returns the updated `config` and the returned error
(`.ok ()` for `nil`). -/
def PersistentPreRunE (env : Env) (now : Int) (config : Config) : Config × Except String Unit :=
  let st := claimLoop config.Claims ([], config.claimsMap)
  let errs := st.1
  let config := { config with claimsMap := st.2 }
  let r := env.ParseDuration config.Exp
  let config := { config with expDuration := match r with | .ok d => d | .error _ => 0 }
  let errs := match r with
    | .ok _ => errs
    | .error err => errs ++ [durationError config.Exp err]
  if errs.length > 0 then
    (config, .error (validationError (strings.Join errs "; ")))
  else
    ({ config with
        claimsMap := config.claimsMap.set "beer_of_the_day" (.str (env.BeerName now)) },
      .ok ())

/-! ## Package `internal/idp` and RSA keys -/

namespace rsa

/-- The Go struct `rsa.PublicKey`: modulus and public exponent. -/
structure PublicKey where
  N : Nat
  E : Nat
  deriving DecidableEq, Repr

/-- The Go struct `rsa.PrivateKey`: the public part and the private exponent. -/
structure PrivateKey where
  Public : PublicKey
  D : Nat
  deriving DecidableEq, Repr

end rsa

/-- The constants and accessors of package `internal/idp`.  Its source is not
part of `cmd/root.go`, so its values are parameters of the development. -/
structure Idp where
  Kid : String
  Issuer : String
  JWKSUrl : String
  GetRSAPrivateKey : rsa.PrivateKey
  GetRSAPublicKey : rsa.PublicKey

/-! ## Package `jwt`: signing methods and tokens -/

namespace jwt

/-- The signing methods registered by `github.com/golang-jwt/jwt`. -/
inductive SigningMethod where
  | HS256 | HS384 | HS512
  | RS256 | RS384 | RS512
  | PS256 | PS384 | PS512
  | ES256 | ES384 | ES512
  | EdDSA
  | None
  deriving DecidableEq, Repr

namespace SigningMethod

/-- The method `Alg()`: the name under which the method is registered. -/
def Alg : SigningMethod → String
  | HS256 => "HS256" | HS384 => "HS384" | HS512 => "HS512"
  | RS256 => "RS256" | RS384 => "RS384" | RS512 => "RS512"
  | PS256 => "PS256" | PS384 => "PS384" | PS512 => "PS512"
  | ES256 => "ES256" | ES384 => "ES384" | ES512 => "ES512"
  | EdDSA => "EdDSA"
  | None => "none"

/-- Whether the dynamic type of the method is `*jwt.SigningMethodRSA`, the
type shared by `SigningMethodRS256`, `SigningMethodRS384` and
`SigningMethodRS512` (the PSS methods have type `*jwt.SigningMethodRSAPSS`). -/
def isRSA : SigningMethod → Bool
  | RS256 | RS384 | RS512 => true
  | _ => false

/-- Every registered method. -/
def all : List SigningMethod :=
  [HS256, HS384, HS512, RS256, RS384, RS512, PS256, PS384, PS512,
   ES256, ES384, ES512, EdDSA, None]

end SigningMethod

/-- The function `jwt.GetSigningMethod`: the registered method of that name. -/
def GetSigningMethod (alg : String) : Option SigningMethod :=
  SigningMethod.all.find? (fun m => decide (m.Alg = alg))

/-- The Go struct `jwt.Token`. -/
structure Token where
  Raw : String
  Method : SigningMethod
  Header : MapClaims
  Claims : MapClaims
  Signature : String
  Valid : Bool

/-- The function `jwt.New(method)`: header `typ` and `alg`, no claims. -/
def New (method : SigningMethod) : Token :=
  { Raw := ""
    Method := method
    Header := (MapClaims.empty.set "typ" (.str "JWT")).set "alg" (.str method.Alg)
    Claims := MapClaims.empty
    Signature := ""
    Valid := false }

end jwt

/-- The text `fmt` prints for an `interface{}` operand under the verb `%s`. -/
def fmtS : Option Value → String
  | some (.str s) => s
  | some (.strs l) => "[" ++ strings.Join l " " ++ "]"
  | some (.int n) => "%!s(int64=" ++ toString n ++ ")"
  | none => "%!s(<nil>)"

/-! ## Token construction and the key-selection callback -/

/-- The function `getUnsignedJwt`, run when the clock reads `now` nanoseconds.
It returns the token and the updated `config`, whose map is the one the token
holds. -/
def getUnsignedJwt (idp : Idp) (now : Int) (config : Config) : jwt.Token × Config :=
  let token := jwt.New .RS256
  let token := { token with Header := token.Header.set "kid" (.str idp.Kid) }
  let now := (Time.ofUnixNano now).UTC
  let m := config.claimsMap.set "exp" (.int (now.Add config.expDuration).Unix)
  let m := m.set "iss" (.str idp.Issuer)
  let m := m.set "aud" (.strs config.Audiences)
  let m := m.set "sub" (.str config.Sub)
  let m := m.set "scopes" (.strs config.Scopes)
  ({ token with Claims := m }, { config with claimsMap := m })

/-- The function literal passed to `jwt.Parse` in `parseSignedJwtString`. -/
def keyFunc (idp : Idp) (t : jwt.Token) : Except String rsa.PublicKey :=
  if ¬ t.Method.isRSA then
    .error ("unexpected method: " ++ fmtS (t.Header.get "alg"))
  else
    .ok idp.GetRSAPublicKey

/-! ## Base64url segments -/

/-- A byte. -/
abbrev Byte := Fin 256

/-- The byte with the low eight bits of `n`. -/
def Byte.ofNat (n : Nat) : Byte := ⟨n % 256, Nat.mod_lt _ (by decide)⟩

namespace base64

/-- The URL-safe alphabet of RFC 4648 (`base64.URLEncoding`). -/
def encodeURL : List Char :=
  "ABCDEFGHIJKLMNOPQRSTUVWXYZabcdefghijklmnopqrstuvwxyz0123456789-_".data

/-- The character of the alphabet for the low six bits of `n`. -/
def encodeChar (n : Nat) : Char := encodeURL.getD (n % 64) 'A'

/-- The six-bit value of a character, `none` outside the alphabet. -/
def decodeChar (c : Char) : Option Nat :=
  if encodeURL.indexOf c < 64 then some (encodeURL.indexOf c) else none

/-- The six-bit values for a byte sequence: every three bytes give four
values, a last group of one or two bytes gives two or three (no padding). -/
def encodeVals : List Byte → List Nat
  | a :: b :: c :: rest =>
    let val := a.val * 65536 + b.val * 256 + c.val
    (val / 262144 % 64) :: (val / 4096 % 64) :: (val / 64 % 64) :: (val % 64) :: encodeVals rest
  | [a, b] =>
    let val := a.val * 65536 + b.val * 256
    [val / 262144 % 64, val / 4096 % 64, val / 64 % 64]
  | [a] =>
    let val := a.val * 65536
    [val / 262144 % 64, val / 4096 % 64]
  | [] => []

/-- The bytes for a sequence of six-bit values; a single left-over value is an
error. -/
def decodeVals : List Nat → Option (List Byte)
  | x :: y :: z :: w :: rest =>
    let val := x * 262144 + y * 4096 + z * 64 + w
    match decodeVals rest with
    | none => none
    | some bs => some (Byte.ofNat (val / 65536) :: Byte.ofNat (val / 256) :: Byte.ofNat val :: bs)
  | [x, y, z] =>
    let val := x * 262144 + y * 4096 + z * 64
    some [Byte.ofNat (val / 65536), Byte.ofNat (val / 256)]
  | [x, y] =>
    let val := x * 262144 + y * 4096
    some [Byte.ofNat (val / 65536)]
  | [_] => none
  | [] => some []

/-- The six-bit values of a character sequence, read as the decoder of
`encoding/base64` reads it: a character of the alphabet gives its value, a line
feed or carriage return is skipped wherever it stands, and any other character
(the padding character `=` included, since the encoding has no padding) is an
error, `none`. -/
def decodeChars : List Char → Option (List Nat)
  | [] => some []
  | c :: cs =>
    match decodeChar c with
    | some v =>
      match decodeChars cs with
      | some vs => some (v :: vs)
      | none => none
    | none =>
      if c = '\n' ∨ c = '\r' then decodeChars cs else none

end base64

namespace jwt

/-- The function `jwt.EncodeSegment`, that is
`base64.RawURLEncoding.EncodeToString`: base64url without padding. -/
def EncodeSegment (seg : List Byte) : String :=
  String.mk ((base64.encodeVals seg).map base64.encodeChar)

/-- The function `jwt.DecodeSegment`, that is
`base64.RawURLEncoding.DecodeString`, `none` for an error: line feeds and
carriage returns are skipped, the remaining characters must all be of the
alphabet, every four of them give three bytes, a last group of two or three
gives one or two bytes (left-over bits are dropped) and a last group of one is
an error. -/
def DecodeSegment (seg : String) : Option (List Byte) :=
  match base64.decodeChars seg.data with
  | none => none
  | some vs => base64.decodeVals vs

end jwt

/-! ## The JSON and signature primitives -/

/-- The primitives of `encoding/json` and of the signing methods that the
`jwt` package calls.  They are parameters: `jsonMarshal` is `json.Marshal` on a
map, `jsonUnmarshal` decodes a JSON object into a map (`none` for an error),
`sign` and `verify` are the raw signature computation and check of a signing
method over the signing input, and `jsonMarshalIndent` is `json.MarshalIndent`
on a token with prefix `""` and indent `"  "`. -/
structure Lib where
  jsonMarshal : MapClaims → List Byte
  jsonUnmarshal : List Byte → Option MapClaims
  sign : jwt.SigningMethod → String → rsa.PrivateKey → Except String (List Byte)
  verify : jwt.SigningMethod → String → List Byte → rsa.PublicKey → Except String Unit
  jsonMarshalIndent : jwt.Token → Except String String

/-- What the specification assumes of the primitives: decoding an encoded JSON
object gives the same map, and a signature made by RS256 with the embedded
private key verifies against the embedded public key. -/
structure Lib.Lawful (L : Lib) (idp : Idp) : Prop where
  json_roundtrip : ∀ m : MapClaims, ∃ m', L.jsonUnmarshal (L.jsonMarshal m) = some m' ∧
    MapClaims.Same m' m
  keys_match : ∀ msg : String, ∃ sig,
    L.sign .RS256 msg idp.GetRSAPrivateKey = .ok sig ∧
    L.verify .RS256 msg sig idp.GetRSAPublicKey = .ok ()

namespace jwt

/-- The method `Token.SigningString`: the encoded header and claims joined by
a dot. -/
def Token.SigningString (L : Lib) (t : Token) : String :=
  strings.Join [EncodeSegment (L.jsonMarshal t.Header), EncodeSegment (L.jsonMarshal t.Claims)] "."

/-- The method `Token.SignedString`: the signing string, a dot, and the
encoded signature. -/
def Token.SignedString (L : Lib) (t : Token) (key : rsa.PrivateKey) : Except String String :=
  match L.sign t.Method (t.SigningString L) key with
  | .error err => .error err
  | .ok sig => .ok (strings.Join [t.SigningString L, EncodeSegment sig] ".")

/-- The function `verifyExp`. -/
def verifyExp (exp now : Int) (required : Bool) : Bool :=
  if exp = 0 then !required else decide (now ≤ exp)

/-- The function `verifyIat`. -/
def verifyIat (iat now : Int) (required : Bool) : Bool :=
  if iat = 0 then !required else decide (now ≥ iat)

/-- The function `verifyNbf`. -/
def verifyNbf (nbf now : Int) (required : Bool) : Bool :=
  if nbf = 0 then !required else decide (now ≥ nbf)

/-- The method `MapClaims.VerifyExpiresAt`: a numeric `exp` is compared, an
absent one passes unless required, one of another type (a string, a list)
fails. -/
def VerifyExpiresAt (m : MapClaims) (cmp : Int) (req : Bool) : Bool :=
  match m.get "exp" with
  | none => !req
  | some (.int exp) => verifyExp exp cmp req
  | some _ => false

/-- The method `MapClaims.VerifyIssuedAt`. -/
def VerifyIssuedAt (m : MapClaims) (cmp : Int) (req : Bool) : Bool :=
  match m.get "iat" with
  | none => !req
  | some (.int iat) => verifyIat iat cmp req
  | some _ => false

/-- The method `MapClaims.VerifyNotBefore`. -/
def VerifyNotBefore (m : MapClaims) (cmp : Int) (req : Bool) : Bool :=
  match m.get "nbf" with
  | none => !req
  | some (.int nbf) => verifyNbf nbf cmp req
  | some _ => false

/-- The method `MapClaims.Valid` at Unix second `now`: the text of the
returned error, `none` for `nil`.  A later failure replaces the text of an
earlier one. -/
def Valid (m : MapClaims) (now : Int) : Option String :=
  let vErr : Option String := none
  let vErr := if !VerifyExpiresAt m now false then some "Token is expired" else vErr
  let vErr := if !VerifyIssuedAt m now false then some "Token used before issued" else vErr
  let vErr := if !VerifyNotBefore m now false then some "Token is not valid yet" else vErr
  vErr

/-- The method `Verify` of a signing method: the signature segment is decoded
and checked against the signing string. -/
def SigningMethod.Verify (L : Lib) (method : SigningMethod) (signingString signature : String)
    (key : rsa.PublicKey) : Except String Unit :=
  match DecodeSegment signature with
  | none => .error "illegal base64 data"
  | some sig => L.verify method signingString sig key

/-- The function `jwt.Parse(tokenString, keyFunc)` when the clock reads `now`
nanoseconds: split into three segments, decode header and claims, look the
method up by the header field `alg`, ask `keyFunc` for the key, validate the
claims, verify the signature.  The result is the token when `err` is `nil`, and
the text of `err` otherwise (for an undecodable segment the text is that of the
decoder, abbreviated here). -/
def Parse (L : Lib) (now : Int) (tokenString : String)
    (keyFunc : Token → Except String rsa.PublicKey) : Except String Token :=
  let parts := strings.Split tokenString '.'
  if parts.length ≠ 3 then .error "token contains an invalid number of segments"
  else
    match DecodeSegment (parts.getD 0 "") with
    | none => .error "illegal base64 data"
    | some headerBytes =>
      match L.jsonUnmarshal headerBytes with
      | none => .error "invalid JSON"
      | some header =>
        match DecodeSegment (parts.getD 1 "") with
        | none => .error "illegal base64 data"
        | some claimBytes =>
          match L.jsonUnmarshal claimBytes with
          | none => .error "invalid JSON"
          | some claims =>
            match header.get "alg" with
            | some (.str alg) =>
              match GetSigningMethod alg with
              | none => .error "signing method (alg) is unavailable."
              | some method =>
                let token : Token :=
                  { Raw := tokenString, Method := method, Header := header, Claims := claims,
                    Signature := "", Valid := false }
                match keyFunc token with
                | .error err => .error err
                | .ok key =>
                  let vErr := Valid claims (Time.ofUnixNano now).Unix
                  let token := { token with Signature := parts.getD 2 "" }
                  let vErr :=
                    match method.Verify L
                        (strings.Join [parts.getD 0 "", parts.getD 1 ""] ".")
                        token.Signature key with
                    | .error err => some err
                    | .ok _ => vErr
                  match vErr with
                  | none => .ok { token with Valid := true }
                  | some err => .error err
            | _ => .error "signing method (alg) is unspecified."

end jwt

/-- The function `parseSignedJwtString`, run when the clock reads `now`. -/
def parseSignedJwtString (L : Lib) (idp : Idp) (now : Int) (token : String) :
    Except String jwt.Token :=
  match jwt.Parse L now token (keyFunc idp) with
  | .error err => .error err
  | .ok t => .ok t

/-- The function `rootCmd.RunE`: the token is built when the clock reads `now`
and, for a pretty print, parsed back when it reads `later`.  The result is the
text written to standard output, or the returned error. -/
def RunE (L : Lib) (idp : Idp) (now later : Int) (config : Config) : Except String String :=
  let theJwt := (getUnsignedJwt idp now config).1
  match theJwt.SignedString L idp.GetRSAPrivateKey with
  | .error err => .error err
  | .ok tokenString =>
    if config.PrettyPrint then
      match parseSignedJwtString L idp later tokenString with
      | .error err => .error err
      | .ok theToken =>
        match L.jsonMarshalIndent theToken with
        | .error err => .error err
        | .ok formatted => .ok ("\n" ++ formatted ++ "\n")
    else
      .ok (tokenString ++ "\n")

/-- The claim names the program assigns itself (lines 60 and 109-113). -/
def reservedNames : List String :=
  ["iss", "sub", "aud", "exp", "scopes", "beer_of_the_day"]

/-- Whether the loop body rejects the raw claim `c` (the test on line 43). -/
def rejected (c : String) : Bool := decide ((strings.Split c '=').length ≠ 2)

/-- The messages the specification says validation records: one
`arg '<raw>' must be in format key=value` per rejected claim, in input order,
followed by `invalid time duration '<raw>': <detail>` when the duration does
not parse. -/
def recorded (env : Env) (config : Config) : List String :=
  (config.Claims.filter rejected).map argError ++
    (match env.ParseDuration config.Exp with
     | .ok _ => []
     | .error err => [durationError config.Exp err])

/-! ## A reference environment

Concrete values for the parameters, on which the definitions can be run and
which show that the assumptions made of the primitives can be met. -/

/-- A key pair and names for package `idp`. -/
def sampleIdp : Idp :=
  { Kid := "sample-kid"
    Issuer := "https://idp.example.test"
    JWKSUrl := "https://idp.example.test/.well-known/jwks.json"
    GetRSAPrivateKey := ⟨⟨3233, 17⟩, 2753⟩
    GetRSAPublicKey := ⟨3233, 17⟩ }

/-- A clock and oracle environment: the duration parser is the table of the
durations used in the examples, with the error text of `time.ParseDuration`
for any other string. -/
def sampleEnv : Env :=
  { ParseDuration := fun s =>
      if s = "8766h" then .ok 31557600000000000
      else if s = "1h" then .ok 3600000000000
      else if s = "-1h" then .ok (-3600000000000)
      else .error ("time: invalid duration \"" ++ s ++ "\"")
    BeerName := fun _ => "Pliny The Elder" }

/-- The configuration of the default invocation. -/
def sampleConfig : Config :=
  { Claims := []
    Scopes := []
    Audiences := ["https://fake-resource.solo.io"]
    Exp := "8766h"
    Sub := "glooey@solo.io"
    claimsMap := MapClaims.empty
    expDuration := 0
    PrettyPrint := false }

/-- Characters are numbered by their code points. -/
instance encodableChar : Encodable Char :=
  Encodable.ofLeftInjection Char.toNat (fun n => some (Char.ofNat n))
    (fun c => by simp)

/-- Strings are numbered through their characters. -/
instance encodableString : Encodable String :=
  Encodable.ofLeftInjection String.data (fun l => some (String.mk l)) (fun _ => rfl)

/-- Values are numbered through the sum of their three shapes. -/
instance encodableValue : Encodable Value :=
  Encodable.ofLeftInjection
    (fun v => match v with
      | .str s => (Sum.inl s : String ⊕ (List String ⊕ Int))
      | .strs l => Sum.inr (Sum.inl l)
      | .int n => Sum.inr (Sum.inr n))
    (fun x => match x with
      | Sum.inl s => some (.str s)
      | Sum.inr (Sum.inl l) => some (.strs l)
      | Sum.inr (Sum.inr n) => some (.int n))
    (fun v => by cases v <;> rfl)

/-- The bytes of a string of one-byte characters. -/
def sampleBytes (s : String) : List Byte := s.data.map (fun c => Byte.ofNat c.toNat)

/-- A reference instance of the primitives: a map is serialised as the
base-256 digits of its number, and the signature of a message is the message
tagged with the key modulus. -/
def sampleLib : Lib :=
  { jsonMarshal := fun m => (Nat.digits 256 (Encodable.encode m)).map Byte.ofNat
    jsonUnmarshal := fun bs => Encodable.decode (Nat.ofDigits 256 (bs.map Fin.val))
    sign := fun _ msg key => .ok (Byte.ofNat key.Public.N :: sampleBytes msg)
    verify := fun _ msg sig key =>
      if sig = Byte.ofNat key.N :: sampleBytes msg then .ok ()
      else .error "crypto/rsa: verification error"
    jsonMarshalIndent := fun t => .ok t.Raw }

/-- The reserved-claim shadow attempt `-c iss=evil.example.com -u victim`. -/
def shadowConfig : Config :=
  { sampleConfig with Claims := ["iss=evil.example.com"], Sub := "victim" }

/-- The invocation `-c foo=bar -c baz=qux -c foo=again -s read -s write -e 1h`. -/
def customConfig : Config :=
  { sampleConfig with
    Claims := ["foo=bar", "baz=qux", "foo=again"], Scopes := ["read", "write"], Exp := "1h" }

/-- The invocation `-c notakeyvalue -c k=a=b -c x=y -e forever`. -/
def malformedConfig : Config :=
  { sampleConfig with Claims := ["notakeyvalue", "k=a=b", "x=y"], Exp := "forever" }

/-- The invocation `-p -e -1h`: a negative duration, which passes validation. -/
def expiredConfig : Config :=
  { sampleConfig with Exp := "-1h", PrettyPrint := true }

/-- A header naming the method HS256. -/
def hs256Header : MapClaims := [("alg", .str "HS256"), ("typ", .str "JWT")]

/-- A compact token whose header names HS256, serialised with the reference
primitives. -/
def hs256Token : String :=
  strings.Join
    [strings.Join [jwt.EncodeSegment (sampleLib.jsonMarshal hs256Header),
      jwt.EncodeSegment (sampleLib.jsonMarshal MapClaims.empty)] ".",
     jwt.EncodeSegment (sampleBytes "mac")] "."

/-- The token `hs256Token` with a line feed in front of its header segment,
which the decoder skips. -/
def hs256TokenLineFeed : String :=
  strings.Join
    [strings.Join ["\n" ++ jwt.EncodeSegment (sampleLib.jsonMarshal hs256Header),
      jwt.EncodeSegment (sampleLib.jsonMarshal MapClaims.empty)] ".",
     jwt.EncodeSegment (sampleBytes "mac")] "."

/-- The invocation `-c iat=1`: a user claim named `iat`. -/
def issuedAtConfig : Config :=
  { sampleConfig with Claims := ["iat=1"] }

/-! # Properties -/

namespace MapClaims

theorem get_del (m : MapClaims) (k k' : String) :
    get (m.del k) k' = if k = k' then none else get m k' := by
  induction m with
  | nil => simp [get, del]
  | cons p rest ih =>
    obtain ⟨a, v⟩ := p
    by_cases ha : a = k
    · subst ha
      by_cases hk : a = k'
      · subst hk
        simpa [del, get] using ih
      · simpa [del, get, hk] using ih
    · by_cases hk : k = k'
      · subst hk
        simpa [del, get, ha] using ih
      · by_cases hak : a = k'
        · subst hak
          simp [del, get, ha, hk]
        · simpa [del, get, ha, hk, hak] using ih

theorem get_set (m : MapClaims) (k k' : String) (v : Value) :
    (m.set k v).get k' = if k = k' then some v else m.get k' := by
  unfold set
  by_cases hk : k = k'
  · simp [get, hk]
  · simp [get, hk, get_del]

theorem get_set_self (m : MapClaims) (k : String) (v : Value) :
    (m.set k v).get k = some v := by
  simp [get_set]

theorem get_set_of_ne (m : MapClaims) {k k' : String} (v : Value) (h : k ≠ k') :
    (m.set k v).get k' = m.get k' := by
  simp [get_set, h]

end MapClaims

/-! ### The claim loop -/

theorem claimLoop_nil (st : List String × MapClaims) : claimLoop [] st = st := rfl

theorem claimLoop_cons (c : String) (cs : List String) (st : List String × MapClaims) :
    claimLoop (c :: cs) st = claimLoop cs (claimStep st c) := rfl

theorem claimLoop_append (xs ys : List String) (st : List String × MapClaims) :
    claimLoop (xs ++ ys) st = claimLoop ys (claimLoop xs st) := by
  simp [claimLoop, List.foldl_append]

theorem claimStep_rejected {c : String} (st : List String × MapClaims)
    (h : (strings.Split c '=').length ≠ 2) :
    claimStep st c = (st.1 ++ [argError c], st.2) := by
  simp [claimStep, h]

theorem claimStep_accepted {c k v : String} (st : List String × MapClaims)
    (h : strings.Split c '=' = [k, v]) :
    claimStep st c = (st.1, st.2.set k (.str v)) := by
  simp [claimStep, h]

theorem claimLoop_errs (cs : List String) (st : List String × MapClaims) :
    (claimLoop cs st).1 = st.1 ++ (cs.filter rejected).map argError := by
  induction cs generalizing st with
  | nil => simp [claimLoop]
  | cons c cs ih =>
    rw [claimLoop_cons, ih]
    by_cases h : (strings.Split c '=').length ≠ 2
    · simp [claimStep_rejected st h, rejected, h]
    · have h2 : (strings.Split c '=').length = 2 := by simpa using h
      simp [claimStep, h2, rejected]
/-! ### `PersistentPreRunE` -/

/-- The messages recorded by `PersistentPreRunE`, in the order of recording. -/
theorem preRun_unfold (env : Env) (now : Int) (config : Config) :
    PersistentPreRunE env now config =
      match env.ParseDuration config.Exp with
      | .ok d =>
        if (claimLoop config.Claims ([], config.claimsMap)).1 = [] then
          ({ config with
              claimsMap := (claimLoop config.Claims ([], config.claimsMap)).2.set
                "beer_of_the_day" (.str (env.BeerName now))
              expDuration := d }, .ok ())
        else
          ({ config with
              claimsMap := (claimLoop config.Claims ([], config.claimsMap)).2
              expDuration := d },
            .error (validationError
              (strings.Join (claimLoop config.Claims ([], config.claimsMap)).1 "; ")))
      | .error err =>
        ({ config with
            claimsMap := (claimLoop config.Claims ([], config.claimsMap)).2
            expDuration := 0 },
          .error (validationError
            (strings.Join ((claimLoop config.Claims ([], config.claimsMap)).1 ++
              [durationError config.Exp err]) "; "))) := by
  unfold PersistentPreRunE
  dsimp only
  cases env.ParseDuration config.Exp with
  | ok d =>
    by_cases he : (claimLoop config.Claims ([], config.claimsMap)).1 = []
    · simp [he]
    · have : 0 < (claimLoop config.Claims ([], config.claimsMap)).1.length :=
        List.length_pos.mpr he
      simp [he, this]
  | error err => simp

theorem preRun_ok (env : Env) (now : Int) (config : Config)
    (hok : (PersistentPreRunE env now config).2 = .ok ()) :
    ∃ d, env.ParseDuration config.Exp = .ok d ∧
      (claimLoop config.Claims ([], config.claimsMap)).1 = [] ∧
      (PersistentPreRunE env now config).1 =
        { config with
          claimsMap := (claimLoop config.Claims ([], config.claimsMap)).2.set
            "beer_of_the_day" (.str (env.BeerName now))
          expDuration := d } := by
  rw [preRun_unfold] at hok ⊢
  cases h : env.ParseDuration config.Exp with
  | ok d =>
    rw [h] at hok
    by_cases he : (claimLoop config.Claims ([], config.claimsMap)).1 = []
    · exact ⟨d, rfl, he, by simp [he]⟩
    · simp [he] at hok
  | error err =>
    rw [h] at hok
    simp at hok
/-! ### `Time.Add` -/

theorem tdiv_tmod_spec (d : Int) :
    d = Int.tdiv d 1000000000 * 1000000000 + Int.tmod d 1000000000 ∧
    (0 ≤ d → 0 ≤ Int.tmod d 1000000000 ∧ Int.tmod d 1000000000 < 1000000000) ∧
    (d < 0 → -1000000000 < Int.tmod d 1000000000 ∧ Int.tmod d 1000000000 ≤ 0) := by
  refine ⟨?_, ?_, ?_⟩
  · have := Int.tmod_add_tdiv d 1000000000
    linarith
  · intro h
    exact ⟨Int.tmod_nonneg _ h, Int.tmod_lt_of_pos _ (by norm_num)⟩
  · intro h
    have h1 : Int.tmod d 1000000000 = -(Int.tmod (-d) 1000000000) := by
      rw [Int.tmod_def, Int.tmod_def, Int.neg_tdiv]
      ring
    have h2 : 0 ≤ Int.tmod (-d) 1000000000 := Int.tmod_nonneg _ (by omega)
    have h3 : Int.tmod (-d) 1000000000 < 1000000000 := Int.tmod_lt_of_pos _ (by norm_num)
    omega

theorem unix_add (now d : Int) :
    (((Time.ofUnixNano now).UTC).Add d).Unix = (now + d) / 1000000000 := by
  obtain ⟨h1, h2, h3⟩ := tdiv_tmod_spec d
  unfold Time.Add Time.Unix Time.UTC Time.ofUnixNano nanosPerSecond
  dsimp only
  generalize Int.tdiv d 1000000000 = q at *
  generalize Int.tmod d 1000000000 = r at *
  have hr : -1000000000 < r ∧ r < 1000000000 := by
    rcases lt_or_le d 0 with h | h
    · have := h3 h; omega
    · have := h2 h; omega
  split_ifs with ha hb
  · show now / 1000000000 + (q + 1) = _
    omega
  · show now / 1000000000 + (q - 1) = _
    omega
  · show now / 1000000000 + q = _
    omega
/-! ### `getUnsignedJwt` -/

theorem getUnsignedJwt_header (idp : Idp) (now : Int) (config : Config) :
    (getUnsignedJwt idp now config).1.Header =
      [("kid", .str idp.Kid), ("alg", .str "RS256"), ("typ", .str "JWT")] := by
  simp [getUnsignedJwt, jwt.New, MapClaims.set, MapClaims.del, MapClaims.empty,
    jwt.SigningMethod.Alg]

theorem getUnsignedJwt_method (idp : Idp) (now : Int) (config : Config) :
    (getUnsignedJwt idp now config).1.Method = .RS256 := rfl

theorem getUnsignedJwt_claims (idp : Idp) (now : Int) (config : Config) (k : String) :
    (getUnsignedJwt idp now config).1.Claims.get k =
      if "scopes" = k then some (.strs config.Scopes)
      else if "sub" = k then some (.str config.Sub)
      else if "aud" = k then some (.strs config.Audiences)
      else if "iss" = k then some (.str idp.Issuer)
      else if "exp" = k then some (.int ((now + config.expDuration) / 1000000000))
      else config.claimsMap.get k := by
  simp only [getUnsignedJwt, MapClaims.get_set, unix_add]

/-- The map held by the token once validation has passed. -/
theorem final_claims (env : Env) (idp : Idp) (t₀ now : Int) (config : Config)
    (hok : (PersistentPreRunE env t₀ config).2 = .ok ()) (k : String) :
    ∃ d, env.ParseDuration config.Exp = .ok d ∧
      (getUnsignedJwt idp now (PersistentPreRunE env t₀ config).1).1.Claims.get k =
        if "scopes" = k then some (.strs config.Scopes)
        else if "sub" = k then some (.str config.Sub)
        else if "aud" = k then some (.strs config.Audiences)
        else if "iss" = k then some (.str idp.Issuer)
        else if "exp" = k then some (.int ((now + d) / 1000000000))
        else if "beer_of_the_day" = k then some (.str (env.BeerName t₀))
        else (claimLoop config.Claims ([], config.claimsMap)).2.get k := by
  obtain ⟨d, hd, _, hcfg⟩ := preRun_ok env t₀ config hok
  refine ⟨d, hd, ?_⟩
  rw [getUnsignedJwt_claims, hcfg]
  simp only [MapClaims.get_set]

/-- C1: once validation has passed, the claim map of the token built by
`getUnsignedJwt` holds under each reserved name the value the program assigns:
`iss` the embedded issuer, `sub` the configured subject, `aud` and `scopes` the
configured lists, `exp` the computed integer expiry and `beer_of_the_day` the
oracle string, whatever the user claims are. -/
theorem reserved_claims_not_shadowed (env : Env) (idp : Idp) (t₀ now : Int) (config : Config)
    (hok : (PersistentPreRunE env t₀ config).2 = .ok ()) :
    ∃ d, env.ParseDuration config.Exp = .ok d ∧
      (getUnsignedJwt idp now (PersistentPreRunE env t₀ config).1).1.Claims.get "iss"
        = some (.str idp.Issuer) ∧
      (getUnsignedJwt idp now (PersistentPreRunE env t₀ config).1).1.Claims.get "sub"
        = some (.str config.Sub) ∧
      (getUnsignedJwt idp now (PersistentPreRunE env t₀ config).1).1.Claims.get "aud"
        = some (.strs config.Audiences) ∧
      (getUnsignedJwt idp now (PersistentPreRunE env t₀ config).1).1.Claims.get "scopes"
        = some (.strs config.Scopes) ∧
      (getUnsignedJwt idp now (PersistentPreRunE env t₀ config).1).1.Claims.get "exp"
        = some (.int (((Time.ofUnixNano now).UTC.Add d).Unix)) ∧
      (getUnsignedJwt idp now (PersistentPreRunE env t₀ config).1).1.Claims.get "beer_of_the_day"
        = some (.str (env.BeerName t₀)) := by
  obtain ⟨d, hd, _⟩ := final_claims env idp t₀ now config hok "iss"
  refine ⟨d, hd, ?_, ?_, ?_, ?_, ?_, ?_⟩
  all_goals
    obtain ⟨d', hd', h⟩ := final_claims env idp t₀ now config hok _
    rw [h]
    have hdd : d' = d := by rw [hd] at hd'; injection hd' with e; exact e.symm
    subst hdd
    simp [unix_add]
/-- C6: once validation has passed, the claim map of the token holds all six
reserved claims, with `aud` and `scopes` held as the configured lists of
strings, in order; an empty scope list is held as the empty list and a single
audience as a one-element list. -/
theorem reserved_claims_present (env : Env) (idp : Idp) (t₀ now : Int) (config : Config)
    (hok : (PersistentPreRunE env t₀ config).2 = .ok ()) :
    (∀ r ∈ reservedNames,
      ((getUnsignedJwt idp now (PersistentPreRunE env t₀ config).1).1.Claims.get r).isSome) ∧
    (getUnsignedJwt idp now (PersistentPreRunE env t₀ config).1).1.Claims.get "aud"
      = some (.strs config.Audiences) ∧
    (getUnsignedJwt idp now (PersistentPreRunE env t₀ config).1).1.Claims.get "scopes"
      = some (.strs config.Scopes) ∧
    (config.Scopes = [] →
      (getUnsignedJwt idp now (PersistentPreRunE env t₀ config).1).1.Claims.get "scopes"
        = some (.strs [])) ∧
    (∀ a, config.Audiences = [a] →
      (getUnsignedJwt idp now (PersistentPreRunE env t₀ config).1).1.Claims.get "aud"
        = some (.strs [a])) := by
  have key : ∀ k, ∃ d, env.ParseDuration config.Exp = .ok d ∧
      (getUnsignedJwt idp now (PersistentPreRunE env t₀ config).1).1.Claims.get k =
        if "scopes" = k then some (.strs config.Scopes)
        else if "sub" = k then some (.str config.Sub)
        else if "aud" = k then some (.strs config.Audiences)
        else if "iss" = k then some (.str idp.Issuer)
        else if "exp" = k then some (.int ((now + d) / 1000000000))
        else if "beer_of_the_day" = k then some (.str (env.BeerName t₀))
        else (claimLoop config.Claims ([], config.claimsMap)).2.get k :=
    fun k => final_claims env idp t₀ now config hok k
  have haud : (getUnsignedJwt idp now (PersistentPreRunE env t₀ config).1).1.Claims.get "aud"
      = some (.strs config.Audiences) := by
    obtain ⟨d, _, h⟩ := key "aud"
    rw [h]; simp
  have hsc : (getUnsignedJwt idp now (PersistentPreRunE env t₀ config).1).1.Claims.get "scopes"
      = some (.strs config.Scopes) := by
    obtain ⟨d, _, h⟩ := key "scopes"
    rw [h]; simp
  refine ⟨?_, haud, hsc, ?_, ?_⟩
  · intro r hr
    obtain ⟨d, _, h⟩ := key r
    rw [h]
    simp only [reservedNames, List.mem_cons, List.mem_singleton, List.not_mem_nil, or_false] at hr
    rcases hr with rfl | rfl | rfl | rfl | rfl | rfl <;> simp
  · intro h
    rw [hsc, h]
  · intro a h
    rw [haud, h]

/-- C7: the `exp` claim set by `getUnsignedJwt` is the integer
`floor((now + d) / 10^9)`, for every clock reading `now` and every duration `d`
in nanoseconds; it is within one second of `floor(now / 10^9)` plus `d` in
seconds, whether `d` is taken exactly, truncated or rounded down. -/
theorem exp_claim_floor (idp : Idp) (now : Int) (config : Config) :
    ∃ e : Int,
      (getUnsignedJwt idp now config).1.Claims.get "exp" = some (.int e) ∧
      e = (now + config.expDuration) / 1000000000 ∧
      |(e : ℚ) - (((now / 1000000000 : Int) : ℚ) + (config.expDuration : ℚ) / 1000000000)| ≤ 1 ∧
      |e - (now / 1000000000 + Int.tdiv config.expDuration 1000000000)| ≤ 1 ∧
      |e - (now / 1000000000 + config.expDuration / 1000000000)| ≤ 1 := by
  refine ⟨(now + config.expDuration) / 1000000000, ?_, rfl, ?_, ?_, ?_⟩
  · rw [getUnsignedJwt_claims]; simp
  · generalize config.expDuration = d
    have h1 : (now + d) / 1000000000 * 1000000000 ≤ now + d := Int.ediv_mul_le _ (by norm_num)
    have h2 : now + d < (now + d) / 1000000000 * 1000000000 + 1000000000 := by omega
    have h3 : now / 1000000000 * 1000000000 ≤ now := Int.ediv_mul_le _ (by norm_num)
    have h4 : now < now / 1000000000 * 1000000000 + 1000000000 := by omega
    generalize (now + d) / 1000000000 = a at *
    generalize now / 1000000000 = b at *
    have q1 : (a : ℚ) * 1000000000 ≤ now + d := by exact_mod_cast h1
    have q2 : (now : ℚ) + d < a * 1000000000 + 1000000000 := by exact_mod_cast h2
    have q3 : (b : ℚ) * 1000000000 ≤ now := by exact_mod_cast h3
    have q4 : (now : ℚ) < b * 1000000000 + 1000000000 := by exact_mod_cast h4
    have hx : (d : ℚ) = (d : ℚ) / 1000000000 * 1000000000 := by field_simp
    generalize (d : ℚ) / 1000000000 = x at hx ⊢
    rw [abs_le]
    constructor <;> linarith
  · obtain ⟨h1, h2, h3⟩ := tdiv_tmod_spec config.expDuration
    generalize config.expDuration = d at *
    generalize Int.tdiv d 1000000000 = q at *
    generalize Int.tmod d 1000000000 = r at *
    have hr : -1000000000 < r ∧ r < 1000000000 := by
      rcases lt_or_le d 0 with h | h
      · have := h3 h; omega
      · have := h2 h; omega
    rw [abs_le]
    constructor <;> omega
  · rw [abs_le]
    constructor <;> omega

/-- C8: the header of the token built by `getUnsignedJwt` is the mapping with
`alg` = `RS256`, `typ` = `JWT` and `kid` = the kid of package `idp`, with no
other field, and it is the same for every configuration and clock reading. -/
theorem header_fixed (idp : Idp) (now : Int) (config : Config) :
    (∀ k, (getUnsignedJwt idp now config).1.Header.get k =
      if k = "alg" then some (.str "RS256")
      else if k = "typ" then some (.str "JWT")
      else if k = "kid" then some (.str idp.Kid)
      else none) ∧
    (getUnsignedJwt idp now config).1.Header.keys.Perm ["alg", "typ", "kid"] ∧
    (getUnsignedJwt idp now config).1.Method = .RS256 ∧
    ∀ (now' : Int) (config' : Config),
      (getUnsignedJwt idp now' config').1.Header = (getUnsignedJwt idp now config).1.Header := by
  refine ⟨?_, ?_, rfl, ?_⟩
  · intro k
    rw [getUnsignedJwt_header]
    by_cases h1 : k = "alg"
    · subst h1; simp [MapClaims.get]
    · by_cases h2 : k = "typ"
      · subst h2; simp [MapClaims.get]
      · by_cases h3 : k = "kid"
        · subst h3; simp [MapClaims.get]
        · have e1 : ¬ "alg" = k := fun h => h1 h.symm
          have e2 : ¬ "typ" = k := fun h => h2 h.symm
          have e3 : ¬ "kid" = k := fun h => h3 h.symm
          simp [MapClaims.get, h1, h2, h3, e1, e2, e3]
  · rw [getUnsignedJwt_header]
    simp only [MapClaims.keys, List.map]
    decide
  · intro now' config'
    rw [getUnsignedJwt_header, getUnsignedJwt_header]
/-! ### `strings.Split` -/

theorem splitAux_length (sep : Char) (s cur : List Char) :
    (strings.splitAux sep s cur).length = s.count sep + 1 := by
  induction s generalizing cur with
  | nil => simp [strings.splitAux]
  | cons c cs ih =>
    by_cases h : c = sep
    · subst h
      simp [strings.splitAux, ih]
    · have h' : ¬ (c == sep) = true := by simpa using h
      simp [strings.splitAux, h, ih, List.count_cons, h']

theorem Split_length (s : String) (sep : Char) :
    (strings.Split s sep).length = s.data.count sep + 1 := by
  simp [strings.Split, splitAux_length]

/-! ### Validation outcome -/

theorem preRun_result (env : Env) (now : Int) (config : Config) :
    (PersistentPreRunE env now config).2 =
      if recorded env config = [] then .ok ()
      else .error (validationError (strings.Join (recorded env config) "; ")) := by
  rw [preRun_unfold]
  have herrs : (claimLoop config.Claims ([], config.claimsMap)).1
      = (config.Claims.filter rejected).map argError := by
    rw [claimLoop_errs]; simp
  unfold recorded
  cases h : env.ParseDuration config.Exp with
  | ok d =>
    simp only [herrs, List.append_nil]
    by_cases he : (config.Claims.filter rejected).map argError = []
    · simp [he]
    · simp [he]
  | error err =>
    simp [herrs]

theorem preRun_fails_of_rejected (env : Env) (now : Int) (config : Config) (c : String)
    (hc : c ∈ config.Claims) (hr : (strings.Split c '=').length ≠ 2) :
    (PersistentPreRunE env now config).2 =
      .error (validationError (strings.Join (recorded env config) "; ")) ∧
    argError c ∈ recorded env config := by
  have hmem : argError c ∈ recorded env config := by
    unfold recorded
    apply List.mem_append_left
    apply List.mem_map_of_mem
    rw [List.mem_filter]
    exact ⟨hc, by simp [rejected, hr]⟩
  refine ⟨?_, hmem⟩
  rw [preRun_result]
  have : recorded env config ≠ [] := List.ne_nil_of_mem hmem
  simp [this]
/-- C4: validation does not fail fast.  If some claim is rejected or the
duration does not parse, `PersistentPreRunE` returns the single error
`claims validation errors: ` followed by the recorded messages joined with
`; `: one `arg '<raw>' must be in format key=value` per rejected claim in input
order, then `invalid time duration '<raw>': <detail>` when the duration is
unparseable.  If no claim is rejected and the duration parses, it returns no
error. -/
theorem validation_errors_aggregated (env : Env) (now : Int) (config : Config) :
    (((∃ c ∈ config.Claims, (strings.Split c '=').length ≠ 2) ∨
        (∃ err, env.ParseDuration config.Exp = .error err)) →
      (PersistentPreRunE env now config).2 =
        .error ("claims validation errors: " ++
          strings.Join
            ((config.Claims.filter (fun c => decide ((strings.Split c '=').length ≠ 2))).map
                (fun c => "arg '" ++ c ++ "' must be in format key=value") ++
              (match env.ParseDuration config.Exp with
                | .ok _ => []
                | .error err => ["invalid time duration '" ++ config.Exp ++ "': " ++ err]))
            "; ")) ∧
    (((∀ c ∈ config.Claims, (strings.Split c '=').length = 2) ∧
        (∃ d, env.ParseDuration config.Exp = .ok d)) →
      (PersistentPreRunE env now config).2 = .ok ()) := by
  have hrec : recorded env config =
      (config.Claims.filter (fun c => decide ((strings.Split c '=').length ≠ 2))).map
          (fun c => "arg '" ++ c ++ "' must be in format key=value") ++
        (match env.ParseDuration config.Exp with
          | .ok _ => []
          | .error err => ["invalid time duration '" ++ config.Exp ++ "': " ++ err]) := rfl
  constructor
  · intro h
    rw [preRun_result, ← hrec]
    have hne : recorded env config ≠ [] := by
      rcases h with ⟨c, hc, hr⟩ | ⟨err, herr⟩
      · exact List.ne_nil_of_mem (preRun_fails_of_rejected env now config c hc hr).2
      · unfold recorded
        rw [herr]
        simp
    simp [hne, validationError]
  · rintro ⟨hwf, d, hd⟩
    rw [preRun_result]
    have : recorded env config = [] := by
      unfold recorded
      rw [hd]
      simp only [List.append_nil, List.map_eq_nil_iff, List.filter_eq_nil_iff]
      intro c hc
      simp [rejected, hwf c hc]
    simp [this]
/-- C2 (amended): a raw claim with more than one `=` is rejected.  The loop
body records `arg '<raw>' must be in format key=value` for it and leaves the
claim map as it was, and `PersistentPreRunE` fails on every configuration that
holds such a claim, with that message among the recorded ones. -/
theorem claim_with_several_separators_rejected (env : Env) (now : Int) (config : Config)
    (c : String) (hsep : 2 ≤ c.data.count '=') :
    (∀ st : List String × MapClaims,
      claimStep st c = (st.1 ++ ["arg '" ++ c ++ "' must be in format key=value"], st.2)) ∧
    (c ∈ config.Claims →
      (PersistentPreRunE env now config).2 =
          .error ("claims validation errors: " ++ strings.Join (recorded env config) "; ") ∧
        ("arg '" ++ c ++ "' must be in format key=value") ∈ recorded env config) := by
  have hlen : (strings.Split c '=').length ≠ 2 := by
    rw [Split_length]; omega
  refine ⟨fun st => claimStep_rejected st hlen, fun hc => ?_⟩
  exact preRun_fails_of_rejected env now config c hc hlen

/-- C3 (amended): a raw claim whose split on `=` does not give exactly two
parts (no `=`, or more than one) is rejected: the loop body records
`arg '<raw>' must be in format key=value`, inserts nothing, and
`PersistentPreRunE` fails on every configuration that holds such a claim.  A
raw claim with exactly one `=` is accepted, its parts being stored as they are,
empty or not. -/
theorem claim_without_two_parts_rejected (env : Env) (now : Int) (config : Config)
    (c : String) :
    ((strings.Split c '=').length ≠ 2 →
      (∀ st : List String × MapClaims,
        claimStep st c = (st.1 ++ ["arg '" ++ c ++ "' must be in format key=value"], st.2)) ∧
      (c ∈ config.Claims →
        (PersistentPreRunE env now config).2 =
            .error ("claims validation errors: " ++ strings.Join (recorded env config) "; ") ∧
          ("arg '" ++ c ++ "' must be in format key=value") ∈ recorded env config)) ∧
    (∀ k v, strings.Split c '=' = [k, v] →
      ∀ st : List String × MapClaims, claimStep st c = (st.1, st.2.set k (.str v))) := by
  refine ⟨fun hlen => ⟨fun st => claimStep_rejected st hlen, fun hc => ?_⟩, ?_⟩
  · exact preRun_fails_of_rejected env now config c hc hlen
  · intro k v h st
    exact claimStep_accepted st h
/-! ### The map built by the claim loop -/

theorem claimStep_get_of_head_ne (st : List String × MapClaims) (c k : String)
    (h : (strings.Split c '=').head? ≠ some k) :
    (claimStep st c).2.get k = st.2.get k := by
  unfold claimStep
  dsimp only
  by_cases hlen : (strings.Split c '=').length ≠ 2
  · simp [hlen]
  · have h2 : (strings.Split c '=').length = 2 := by simpa using hlen
    match hs : strings.Split c '=', h2 with
    | [a, b], _ =>
      rw [hs] at h
      have hak : a ≠ k := by simpa using h
      simp [MapClaims.get_set, hak]

theorem claimLoop_get_of_heads_ne (post : List String) (st : List String × MapClaims)
    (k : String) (h : ∀ c ∈ post, (strings.Split c '=').head? ≠ some k) :
    (claimLoop post st).2.get k = st.2.get k := by
  induction post generalizing st with
  | nil => rfl
  | cons c cs ih =>
    rw [claimLoop_cons, ih _ (fun c' hc' => h c' (List.mem_cons_of_mem _ hc'))]
    exact claimStep_get_of_head_ne st c k (h c (List.mem_cons_self _ _))

theorem claimLoop_get_last (pre post : List String) (c k v : String)
    (st : List String × MapClaims) (hc : strings.Split c '=' = [k, v])
    (hpost : ∀ c' ∈ post, (strings.Split c' '=').head? ≠ some k) :
    (claimLoop (pre ++ c :: post) st).2.get k = some (.str v) := by
  rw [claimLoop_append, claimLoop_cons, claimLoop_get_of_heads_ne _ _ _ hpost,
    claimStep_accepted _ hc]
  exact MapClaims.get_set_self _ _ _

theorem exists_last_with (P : String → Prop) (l : List String) (h : ∃ c ∈ l, P c) :
    ∃ pre c post, l = pre ++ c :: post ∧ P c ∧ ∀ c' ∈ post, ¬ P c' := by
  induction l with
  | nil => simp at h
  | cons x xs ih =>
    by_cases hx : ∃ c ∈ xs, P c
    · obtain ⟨pre, c, post, hl, hc, hpost⟩ := ih hx
      exact ⟨x :: pre, c, post, by simp [hl], hc, hpost⟩
    · obtain ⟨c, hc, hP⟩ := h
      have hcx : c = x := by
        rcases List.mem_cons.mp hc with h1 | h1
        · exact h1
        · exact absurd ⟨c, h1, hP⟩ hx
      subst hcx
      refine ⟨[], c, xs, rfl, hP, ?_⟩
      intro c' hc' hP'
      exact hx ⟨c', hc', hP'⟩

/-- C5: when every user claim is well formed and the duration parses, for every
key `k` that is not a reserved name the claim map of the token holds, under
`k`, the string value of the last claim of the list with key `k`; such a claim
exists as soon as some claim has key `k`. -/
theorem user_claim_last_wins (env : Env) (idp : Idp) (t₀ now : Int) (config : Config)
    (k : String)
    (hwf : ∀ c ∈ config.Claims, (strings.Split c '=').length = 2)
    (hdur : ∃ d, env.ParseDuration config.Exp = .ok d)
    (hk : k ∉ reservedNames) :
    (PersistentPreRunE env t₀ config).2 = .ok () ∧
    (∀ pre c post v, config.Claims = pre ++ c :: post →
      strings.Split c '=' = [k, v] →
      (∀ c' ∈ post, (strings.Split c' '=').head? ≠ some k) →
      (getUnsignedJwt idp now (PersistentPreRunE env t₀ config).1).1.Claims.get k
        = some (.str v)) ∧
    ((∃ c ∈ config.Claims, (strings.Split c '=').head? = some k) →
      ∃ pre c post v, config.Claims = pre ++ c :: post ∧
        strings.Split c '=' = [k, v] ∧
        (∀ c' ∈ post, (strings.Split c' '=').head? ≠ some k) ∧
        (getUnsignedJwt idp now (PersistentPreRunE env t₀ config).1).1.Claims.get k
          = some (.str v)) := by
  have hok : (PersistentPreRunE env t₀ config).2 = .ok () := by
    rw [preRun_result]
    obtain ⟨d, hd⟩ := hdur
    have : recorded env config = [] := by
      unfold recorded
      rw [hd]
      simp only [List.append_nil, List.map_eq_nil_iff, List.filter_eq_nil_iff]
      intro c hc
      simp [rejected, hwf c hc]
    simp [this]
  have hfinal : ∀ pre c post v, config.Claims = pre ++ c :: post →
      strings.Split c '=' = [k, v] →
      (∀ c' ∈ post, (strings.Split c' '=').head? ≠ some k) →
      (getUnsignedJwt idp now (PersistentPreRunE env t₀ config).1).1.Claims.get k
        = some (.str v) := by
    intro pre c post v hl hc hpost
    obtain ⟨d, _, h⟩ := final_claims env idp t₀ now config hok k
    rw [h, hl, claimLoop_get_last pre post c k v _ hc hpost]
    simp only [reservedNames, List.mem_cons, List.mem_singleton, List.not_mem_nil, or_false,
      not_or] at hk
    obtain ⟨h1, h2, h3, h4, h5, h6⟩ := hk
    have e1 : ¬ "scopes" = k := fun e => h5 e.symm
    have e2 : ¬ "sub" = k := fun e => h2 e.symm
    have e3 : ¬ "aud" = k := fun e => h3 e.symm
    have e4 : ¬ "iss" = k := fun e => h1 e.symm
    have e5 : ¬ "exp" = k := fun e => h4 e.symm
    have e6 : ¬ "beer_of_the_day" = k := fun e => h6 e.symm
    simp [e1, e2, e3, e4, e5, e6]
  refine ⟨hok, hfinal, ?_⟩
  intro hex
  obtain ⟨pre, c, post, hl, hc, hpost⟩ :=
    exists_last_with (fun c => (strings.Split c '=').head? = some k) config.Claims hex
  have hcm : c ∈ config.Claims := by rw [hl]; simp
  have h2 := hwf c hcm
  match hs : strings.Split c '=', h2 with
  | [a, b], _ =>
    rw [hs] at hc
    have hak : a = k := by simpa using hc
    subst hak
    exact ⟨pre, c, post, b, hl, hs, hpost, hfinal pre c post b hl hs hpost⟩

/-! ### Base64url -/

namespace base64

theorem decodeChar_encodeChar (n : Nat) (h : n < 64) : decodeChar (encodeChar n) = some n := by
  revert n
  decide

theorem encodeChar_mem (n : Nat) : encodeChar n ∈ encodeURL := by
  have : ∀ m, m < 64 → encodeURL.getD m 'A' ∈ encodeURL := by decide
  exact this (n % 64) (Nat.mod_lt _ (by decide))

theorem dot_not_mem : '.' ∉ encodeURL := by decide

theorem pad_not_mem : '=' ∉ encodeURL := by decide

theorem encodeVals_lt (bs : List Byte) : ∀ v ∈ encodeVals bs, v < 64 := by
  induction bs using encodeVals.induct with
  | case1 a b c rest ih =>
    intro v hv
    simp only [encodeVals, List.mem_cons] at hv
    rcases hv with h | h | h | h | h
    · omega
    · omega
    · omega
    · omega
    · exact ih v h
  | case2 a b =>
    intro v hv
    simp only [encodeVals, List.mem_cons, List.mem_singleton, List.not_mem_nil, or_false] at hv
    omega
  | case3 a =>
    intro v hv
    simp only [encodeVals, List.mem_cons, List.mem_singleton, List.not_mem_nil, or_false] at hv
    omega
  | case4 => simp [encodeVals]

theorem decodeChars_map_encodeChar (vs : List Nat) (h : ∀ v ∈ vs, v < 64) :
    decodeChars (vs.map encodeChar) = some vs := by
  induction vs with
  | nil => rfl
  | cons v vs ih =>
    simp only [List.map, decodeChars]
    rw [decodeChar_encodeChar v (h v (List.mem_cons_self _ _)),
      ih (fun w hw => h w (List.mem_cons_of_mem _ hw))]

theorem decodeChars_skip_newline (c : Char) (cs : List Char) (h : c = '\n' ∨ c = '\r') :
    decodeChars (c :: cs) = decodeChars cs := by
  have hnone : decodeChar c = none := by
    rcases h with rfl | rfl <;> decide
  simp only [decodeChars, hnone, h, if_true]

theorem byte_ofNat_eq (a : Byte) (n : Nat) (h : n % 256 = a.val) : Byte.ofNat n = a :=
  Fin.ext h

theorem decodeVals_encodeVals (bs : List Byte) : decodeVals (encodeVals bs) = some bs := by
  induction bs using encodeVals.induct with
  | case1 a b c rest ih =>
    have ha := a.isLt
    have hb := b.isLt
    have hc := c.isLt
    simp only [encodeVals, decodeVals]
    rw [ih]
    dsimp only
    rw [byte_ofNat_eq a _ (by omega), byte_ofNat_eq b _ (by omega), byte_ofNat_eq c _ (by omega)]
  | case2 a b =>
    have ha := a.isLt
    have hb := b.isLt
    simp only [encodeVals, decodeVals]
    rw [byte_ofNat_eq a _ (by omega), byte_ofNat_eq b _ (by omega)]
  | case3 a =>
    have ha := a.isLt
    simp only [encodeVals, decodeVals]
    rw [byte_ofNat_eq a _ (by omega)]
  | case4 => rfl

end base64

theorem decode_encode_segment (bs : List Byte) :
    jwt.DecodeSegment (jwt.EncodeSegment bs) = some bs := by
  simp only [jwt.DecodeSegment, jwt.EncodeSegment]
  rw [base64.decodeChars_map_encodeChar _ (base64.encodeVals_lt bs)]
  exact base64.decodeVals_encodeVals bs

/-- The decoder skips line breaks inside a segment, refuses a character outside
the alphabet and the padding character, and refuses a single left-over
character. -/
theorem decodeSegment_examples :
    jwt.DecodeSegment "QUJD" = some [65, 66, 67] ∧
    jwt.DecodeSegment "QU\nJD" = some [65, 66, 67] ∧
    jwt.DecodeSegment "\r\nQUJD\r\n" = some [65, 66, 67] ∧
    jwt.DecodeSegment "QUI" = some [65, 66] ∧
    jwt.DecodeSegment "QQ" = some [65] ∧
    jwt.DecodeSegment "QUI=" = none ∧
    jwt.DecodeSegment "QU JD" = none ∧
    jwt.DecodeSegment "QUJDQ" = none := by
  decide

theorem encodeSegment_alphabet (bs : List Byte) :
    ∀ c ∈ (jwt.EncodeSegment bs).data, c ∈ base64.encodeURL := by
  intro c hc
  simp only [jwt.EncodeSegment, List.mem_map] at hc
  obtain ⟨v, _, rfl⟩ := hc
  exact base64.encodeChar_mem v
/-! ### Splitting a compact token -/

theorem splitAux_no_sep (sep : Char) (a cur : List Char) (h : sep ∉ a) :
    strings.splitAux sep a cur = [cur ++ a] := by
  induction a generalizing cur with
  | nil => simp [strings.splitAux]
  | cons c cs ih =>
    have hc : c ≠ sep := fun e => h (by simp [e])
    have hcs : sep ∉ cs := fun e => h (List.mem_cons_of_mem _ e)
    simp [strings.splitAux, hc, ih _ hcs]

theorem splitAux_append_sep (sep : Char) (a rest cur : List Char) (h : sep ∉ a) :
    strings.splitAux sep (a ++ sep :: rest) cur = (cur ++ a) :: strings.splitAux sep rest [] := by
  induction a generalizing cur with
  | nil => simp [strings.splitAux]
  | cons c cs ih =>
    have hc : c ≠ sep := fun e => h (by simp [e])
    have hcs : sep ∉ cs := fun e => h (List.mem_cons_of_mem _ e)
    simp [strings.splitAux, hc, ih _ hcs]

theorem join_two (a b sep : String) : strings.Join [a, b] sep = a ++ sep ++ b := rfl

theorem split_three (a b c : String) (ha : '.' ∉ a.data) (hb : '.' ∉ b.data)
    (hc : '.' ∉ c.data) :
    strings.Split (strings.Join [strings.Join [a, b] ".", c] ".") '.' = [a, b, c] := by
  have hdata : (strings.Join [strings.Join [a, b] ".", c] ".").data
      = a.data ++ '.' :: (b.data ++ '.' :: c.data) := by
    simp [join_two, String.data_append]
  unfold strings.Split
  rw [hdata, splitAux_append_sep _ _ _ _ ha, splitAux_append_sep _ _ _ _ hb,
    splitAux_no_sep _ _ _ hc]
  simp

theorem encodeSegment_no_dot (bs : List Byte) : '.' ∉ (jwt.EncodeSegment bs).data :=
  fun h => base64.dot_not_mem (encodeSegment_alphabet bs _ h)

/-! ### Claims validation depends on the entries only -/

theorem valid_congr {m m' : MapClaims} (h : MapClaims.Same m' m) (now : Int) :
    jwt.Valid m' now = jwt.Valid m now := by
  simp only [jwt.Valid, jwt.VerifyExpiresAt, jwt.VerifyIssuedAt, jwt.VerifyNotBefore, h "exp",
    h "iat", h "nbf"]

/-- The outcome of parsing back a token signed by RS256 with the embedded
key: it is decided by the validation of the claims alone. -/
theorem parse_signed (L : Lib) (idp : Idp) (hL : L.Lawful idp) (tok : jwt.Token)
    (hm : tok.Method = .RS256) (halg : tok.Header.get "alg" = some (.str "RS256"))
    (later : Int) :
    ∃ s h' c' sig,
      tok.SignedString L idp.GetRSAPrivateKey = .ok s ∧
      MapClaims.Same h' tok.Header ∧ MapClaims.Same c' tok.Claims ∧
      strings.Split s '.' =
        [jwt.EncodeSegment (L.jsonMarshal tok.Header), jwt.EncodeSegment (L.jsonMarshal tok.Claims),
          jwt.EncodeSegment sig] ∧
      parseSignedJwtString L idp later s =
        match jwt.Valid tok.Claims (later / 1000000000) with
        | none =>
          .ok { Raw := s, Method := .RS256, Header := h', Claims := c',
                Signature := jwt.EncodeSegment sig, Valid := true }
        | some err => .error err := by
  obtain ⟨sig, hsign, hverify⟩ := hL.keys_match (tok.SigningString L)
  obtain ⟨h', hh', hsameH⟩ := hL.json_roundtrip tok.Header
  obtain ⟨c', hc', hsameC⟩ := hL.json_roundtrip tok.Claims
  have hsplit : strings.Split
      (strings.Join [tok.SigningString L, jwt.EncodeSegment sig] ".") '.' =
      [jwt.EncodeSegment (L.jsonMarshal tok.Header), jwt.EncodeSegment (L.jsonMarshal tok.Claims),
        jwt.EncodeSegment sig] :=
    split_three _ _ _ (encodeSegment_no_dot _) (encodeSegment_no_dot _) (encodeSegment_no_dot _)
  refine ⟨strings.Join [tok.SigningString L, jwt.EncodeSegment sig] ".", h', c', sig, ?_,
    hsameH, hsameC, hsplit, ?_⟩
  · simp only [jwt.Token.SignedString, hm] at hsign ⊢
    rw [hsign]
  · have hget : h'.get "alg" = some (.str "RS256") := by rw [hsameH "alg", halg]
    have hmeth : jwt.GetSigningMethod "RS256" = some .RS256 := by decide
    have hverify' : L.verify jwt.SigningMethod.RS256
        (strings.Join [jwt.EncodeSegment (L.jsonMarshal tok.Header),
          jwt.EncodeSegment (L.jsonMarshal tok.Claims)] ".") sig idp.GetRSAPublicKey = .ok () :=
      hverify
    simp only [parseSignedJwtString, jwt.Parse, hsplit, List.length_cons, List.length_nil,
      List.getD_cons_zero, List.getD_cons_succ, decode_encode_segment, hh', hc', hget, hmeth,
      keyFunc, jwt.SigningMethod.isRSA, jwt.SigningMethod.Verify, hverify',
      valid_congr hsameC, Time.ofUnixNano, Time.Unix, nanosPerSecond]
    cases jwt.Valid tok.Claims (later / 1000000000) <;> simp [hverify']
/-! ### The reference primitives meet the assumptions -/

theorem sampleLib_json (m : MapClaims) :
    sampleLib.jsonUnmarshal (sampleLib.jsonMarshal m) = some m := by
  simp only [sampleLib]
  have hmap : ((Nat.digits 256 (Encodable.encode m)).map Byte.ofNat).map Fin.val
      = Nat.digits 256 (Encodable.encode m) := by
    rw [List.map_map]
    conv_rhs => rw [← List.map_id (Nat.digits 256 (Encodable.encode m))]
    apply List.map_congr_left
    intro d hd
    have : d < 256 := Nat.digits_lt_base (by norm_num) hd
    simp [Byte.ofNat, Nat.mod_eq_of_lt this]
  rw [hmap, Nat.ofDigits_digits]
  exact Encodable.encodek m

theorem sampleLib_lawful : sampleLib.Lawful sampleIdp where
  json_roundtrip := fun m => ⟨m, sampleLib_json m, fun _ => rfl⟩
  keys_match := fun msg => ⟨Byte.ofNat 3233 :: sampleBytes msg, rfl, by simp [sampleLib, sampleIdp]⟩
/-! ### Token inspection -/

theorem getSigningMethod_alg (m : jwt.SigningMethod) : jwt.GetSigningMethod m.Alg = some m := by
  cases m <;> decide

/-- C9 (amended): for a parsed token (a compact string whose header and claims
decode and whose header field `alg` names the registered method `m`), the
key-selection callback of `parseSignedJwtString` returns the embedded public
key when `m` is one of the RSA methods RS256, RS384, RS512, and the error
`unexpected method: <alg>` for every other method; in the latter case
`parseSignedJwtString` fails with that error. -/
theorem key_selection_by_method_family (L : Lib) (idp : Idp) (now : Int)
    (s p0 p1 p2 : String) (hb cb : List Byte) (header claims : MapClaims)
    (m : jwt.SigningMethod)
    (hsplit : strings.Split s '.' = [p0, p1, p2])
    (hp0 : jwt.DecodeSegment p0 = some hb) (hhdr : L.jsonUnmarshal hb = some header)
    (hp1 : jwt.DecodeSegment p1 = some cb) (hcl : L.jsonUnmarshal cb = some claims)
    (halg : header.get "alg" = some (.str m.Alg)) :
    keyFunc idp { Raw := s, Method := m, Header := header, Claims := claims,
                  Signature := "", Valid := false } =
      (if m ∈ [jwt.SigningMethod.RS256, jwt.SigningMethod.RS384, jwt.SigningMethod.RS512]
        then .ok idp.GetRSAPublicKey
        else .error ("unexpected method: " ++ m.Alg)) ∧
    (m ∉ [jwt.SigningMethod.RS256, jwt.SigningMethod.RS384, jwt.SigningMethod.RS512] →
      parseSignedJwtString L idp now s = .error ("unexpected method: " ++ m.Alg)) := by
  have hkey : ∀ t : jwt.Token, t.Method = m → t.Header = header → keyFunc idp t =
      (if m ∈ [jwt.SigningMethod.RS256, jwt.SigningMethod.RS384, jwt.SigningMethod.RS512]
        then .ok idp.GetRSAPublicKey
        else .error ("unexpected method: " ++ m.Alg)) := by
    intro t htm hth
    simp only [keyFunc, htm, hth, halg, fmtS]
    cases m <;> simp [jwt.SigningMethod.isRSA]
  refine ⟨hkey _ rfl rfl, fun hm => ?_⟩
  have hkey' := hkey (jwt.Token.mk s m header claims "" false) rfl rfl
  rw [if_neg hm] at hkey'
  simp only [parseSignedJwtString, jwt.Parse, hsplit, List.length_cons, List.length_nil,
    List.getD_cons_zero, List.getD_cons_succ, hp0, hhdr, hp1, hcl, halg, getSigningMethod_alg,
    hkey']
  simp

/-- C10 (amended): for a configuration that passes validation, has no user
claim named `iat` or `nbf`, and whose expiry second is zero or not before the
second at which the token is parsed back, signing the token of
`getUnsignedJwt` with the embedded private key succeeds,
`parseSignedJwtString` accepts the result and returns the header and the claims
that were signed, and the compact token is exactly three `.`-separated
segments of unpadded base64url. -/
theorem token_round_trip (L : Lib) (env : Env) (idp : Idp) (hL : L.Lawful idp)
    (t₀ now later d : Int) (config : Config)
    (hmap : config.claimsMap = MapClaims.empty)
    (hok : (PersistentPreRunE env t₀ config).2 = .ok ())
    (hd : env.ParseDuration config.Exp = .ok d)
    (hiat : ∀ c ∈ config.Claims, (strings.Split c '=').head? ≠ some "iat")
    (hnbf : ∀ c ∈ config.Claims, (strings.Split c '=').head? ≠ some "nbf")
    (hexp : (now + d) / 1000000000 = 0 ∨ later / 1000000000 ≤ (now + d) / 1000000000) :
    ∃ s t p0 p1 p2,
      (getUnsignedJwt idp now (PersistentPreRunE env t₀ config).1).1.SignedString L
          idp.GetRSAPrivateKey = .ok s ∧
      parseSignedJwtString L idp later s = .ok t ∧
      t.Valid = true ∧
      MapClaims.Same t.Header (getUnsignedJwt idp now (PersistentPreRunE env t₀ config).1).1.Header ∧
      MapClaims.Same t.Claims (getUnsignedJwt idp now (PersistentPreRunE env t₀ config).1).1.Claims ∧
      strings.Split s '.' = [p0, p1, p2] ∧
      (∀ p ∈ [p0, p1, p2], ∀ c ∈ p.data, c ∈ base64.encodeURL ∧ c ≠ '=' ∧ c ≠ '.') := by
  have halg : (getUnsignedJwt idp now (PersistentPreRunE env t₀ config).1).1.Header.get "alg"
      = some (.str "RS256") := by
    rw [getUnsignedJwt_header]; simp [MapClaims.get]
  obtain ⟨s, h', c', sig, hs, hH, hC, hsplit, hparse⟩ :=
    parse_signed L idp hL (getUnsignedJwt idp now (PersistentPreRunE env t₀ config).1).1
      (getUnsignedJwt_method _ _ _) halg later
  have hloop : ∀ k, (∀ c ∈ config.Claims, (strings.Split c '=').head? ≠ some k) →
      (claimLoop config.Claims ([], config.claimsMap)).2.get k = none := by
    intro k hk
    rw [claimLoop_get_of_heads_ne _ _ _ hk, hmap]
    rfl
  have hfin : ∀ k, (getUnsignedJwt idp now (PersistentPreRunE env t₀ config).1).1.Claims.get k =
        if "scopes" = k then some (.strs config.Scopes)
        else if "sub" = k then some (.str config.Sub)
        else if "aud" = k then some (.strs config.Audiences)
        else if "iss" = k then some (.str idp.Issuer)
        else if "exp" = k then some (.int ((now + d) / 1000000000))
        else if "beer_of_the_day" = k then some (.str (env.BeerName t₀))
        else (claimLoop config.Claims ([], config.claimsMap)).2.get k := by
    intro k
    obtain ⟨d', hd', h⟩ := final_claims env idp t₀ now config hok k
    have hdd : d' = d := by rw [hd] at hd'; injection hd' with e; exact e.symm
    subst hdd
    exact h
  have hvalid : jwt.Valid (getUnsignedJwt idp now (PersistentPreRunE env t₀ config).1).1.Claims
      (later / 1000000000) = none := by
    have hexpv : jwt.verifyExp ((now + d) / 1000000000) (later / 1000000000) false = true := by
      unfold jwt.verifyExp
      rcases hexp with h0 | hle
      · simp [h0]
      · by_cases h0 : (now + d) / 1000000000 = 0
        · simp [h0]
        · simp [h0, hle]
    simp [jwt.Valid, jwt.VerifyExpiresAt, jwt.VerifyIssuedAt, jwt.VerifyNotBefore, hfin,
      hloop "iat" hiat, hloop "nbf" hnbf, hexpv]
  rw [hvalid] at hparse
  refine ⟨s, _, _, _, _, hs, hparse, rfl, hH, hC, hsplit, ?_⟩
  intro p hp c hc
  have hmem : c ∈ base64.encodeURL := by
    simp only [List.mem_cons, List.mem_singleton, List.not_mem_nil, or_false] at hp
    rcases hp with rfl | rfl | rfl <;> exact encodeSegment_alphabet _ c hc
  refine ⟨hmem, ?_, ?_⟩
  · rintro rfl; exact base64.pad_not_mem hmem
  · rintro rfl; exact base64.dot_not_mem hmem
/-! ### Concrete runs -/

/-- Witness of C1 on the shadow attempt `-c iss=evil.example.com -u victim`:
validation passes and the reserved names hold the assigned values. -/
theorem reserved_claims_not_shadowed_witness :
    (PersistentPreRunE sampleEnv 0 shadowConfig).2 = .ok () ∧
    ∃ d, sampleEnv.ParseDuration shadowConfig.Exp = .ok d ∧
      (getUnsignedJwt sampleIdp 1700000000123456789
          (PersistentPreRunE sampleEnv 0 shadowConfig).1).1.Claims.get "iss"
        = some (.str "https://idp.example.test") ∧
      (getUnsignedJwt sampleIdp 1700000000123456789
          (PersistentPreRunE sampleEnv 0 shadowConfig).1).1.Claims.get "sub"
        = some (.str "victim") ∧
      (getUnsignedJwt sampleIdp 1700000000123456789
          (PersistentPreRunE sampleEnv 0 shadowConfig).1).1.Claims.get "aud"
        = some (.strs ["https://fake-resource.solo.io"]) ∧
      (getUnsignedJwt sampleIdp 1700000000123456789
          (PersistentPreRunE sampleEnv 0 shadowConfig).1).1.Claims.get "scopes"
        = some (.strs []) ∧
      (getUnsignedJwt sampleIdp 1700000000123456789
          (PersistentPreRunE sampleEnv 0 shadowConfig).1).1.Claims.get "exp"
        = some (.int (((Time.ofUnixNano 1700000000123456789).UTC.Add d).Unix)) ∧
      (getUnsignedJwt sampleIdp 1700000000123456789
          (PersistentPreRunE sampleEnv 0 shadowConfig).1).1.Claims.get "beer_of_the_day"
        = some (.str "Pliny The Elder") :=
  ⟨rfl, reserved_claims_not_shadowed sampleEnv sampleIdp 0 1700000000123456789 shadowConfig rfl⟩

/-- Counterexample to C2 as stated: the raw claim `k=a=b` splits into three
parts, so the loop body records an error and inserts nothing, and validation
fails. -/
theorem several_separators_counterexample :
    strings.Split "k=a=b" '=' = ["k", "a", "b"] ∧
    claimStep ([], MapClaims.empty) "k=a=b"
      = (["arg 'k=a=b' must be in format key=value"], MapClaims.empty) ∧
    (PersistentPreRunE sampleEnv 0 { sampleConfig with Claims := ["k=a=b"] }).1.claimsMap.get "k"
      = none ∧
    (PersistentPreRunE sampleEnv 0 { sampleConfig with Claims := ["k=a=b"] }).2
      = .error "claims validation errors: arg 'k=a=b' must be in format key=value" :=
  ⟨rfl, rfl, rfl, rfl⟩

/-- Witness of the amended C2 on `k=a=b` inside the malformed invocation. -/
theorem claim_with_several_separators_rejected_witness :
    2 ≤ "k=a=b".data.count '=' ∧
    (∀ st : List String × MapClaims,
      claimStep st "k=a=b" = (st.1 ++ ["arg 'k=a=b' must be in format key=value"], st.2)) ∧
    ("k=a=b" ∈ malformedConfig.Claims →
      (PersistentPreRunE sampleEnv 0 malformedConfig).2 =
          .error ("claims validation errors: " ++
            strings.Join (recorded sampleEnv malformedConfig) "; ") ∧
        "arg 'k=a=b' must be in format key=value" ∈ recorded sampleEnv malformedConfig) :=
  ⟨by decide,
    claim_with_several_separators_rejected sampleEnv 0 malformedConfig "k=a=b" (by decide)⟩

/-- Counterexample to C3 as stated: the raw claims `=v` and `k=` split into
two parts, one of them empty; the loop body records no error and inserts the
pair, and validation passes. -/
theorem empty_part_counterexample :
    strings.Split "=v" '=' = ["", "v"] ∧
    strings.Split "k=" '=' = ["k", ""] ∧
    claimStep ([], MapClaims.empty) "=v" = ([], [("", .str "v")]) ∧
    claimStep ([], MapClaims.empty) "k=" = ([], [("k", .str "")]) ∧
    (PersistentPreRunE sampleEnv 0 { sampleConfig with Claims := ["=v", "k="] }).2 = .ok () :=
  ⟨rfl, rfl, rfl, rfl, rfl⟩

/-- Witness of the amended C3: `notakeyvalue` is rejected, `k=` is accepted. -/
theorem claim_without_two_parts_rejected_witness :
    (strings.Split "notakeyvalue" '=').length ≠ 2 ∧
    (PersistentPreRunE sampleEnv 0 malformedConfig).2 =
      .error ("claims validation errors: " ++
        strings.Join (recorded sampleEnv malformedConfig) "; ") ∧
    (∀ st : List String × MapClaims, claimStep st "k=" = (st.1, st.2.set "k" (.str ""))) :=
  ⟨by decide,
    (((claim_without_two_parts_rejected sampleEnv 0 malformedConfig "notakeyvalue").1
      (by decide)).2 (by decide)).1,
    (claim_without_two_parts_rejected sampleEnv 0 malformedConfig "k=").2 "k" "" rfl⟩

/-- Witness of C4 on `-c notakeyvalue -c k=a=b -c x=y -e forever`: one error
carrying the three messages in order. -/
theorem validation_errors_aggregated_witness :
    (PersistentPreRunE sampleEnv 0 malformedConfig).2 =
      .error ("claims validation errors: arg 'notakeyvalue' must be in format key=value; " ++
        "arg 'k=a=b' must be in format key=value; " ++
        "invalid time duration 'forever': time: invalid duration \"forever\"") ∧
    (PersistentPreRunE sampleEnv 0 customConfig).2 = .ok () :=
  ⟨(validation_errors_aggregated sampleEnv 0 malformedConfig).1
      (Or.inl ⟨"notakeyvalue", by decide, by decide⟩),
    (validation_errors_aggregated sampleEnv 0 customConfig).2
      ⟨by decide, 3600000000000, rfl⟩⟩

/-- Witness of C5 on `-c foo=bar -c baz=qux -c foo=again`: `foo` holds the
value of its last claim. -/
theorem user_claim_last_wins_witness :
    "foo" ∉ reservedNames ∧
    (getUnsignedJwt sampleIdp 1700000000123456789
        (PersistentPreRunE sampleEnv 0 customConfig).1).1.Claims.get "foo"
      = some (.str "again") :=
  ⟨by decide,
    (user_claim_last_wins sampleEnv sampleIdp 0 1700000000123456789 customConfig "foo"
      (by decide) ⟨3600000000000, rfl⟩ (by decide)).2.1
      ["foo=bar", "baz=qux"] "foo=again" [] "again" rfl rfl (by simp)⟩

/-- Witness of C6 on the default invocation. -/
theorem reserved_claims_present_witness :
    (PersistentPreRunE sampleEnv 0 sampleConfig).2 = .ok () ∧
    (∀ r ∈ reservedNames,
      ((getUnsignedJwt sampleIdp 1700000000123456789
        (PersistentPreRunE sampleEnv 0 sampleConfig).1).1.Claims.get r).isSome) ∧
    (getUnsignedJwt sampleIdp 1700000000123456789
        (PersistentPreRunE sampleEnv 0 sampleConfig).1).1.Claims.get "scopes"
      = some (.strs []) ∧
    (getUnsignedJwt sampleIdp 1700000000123456789
        (PersistentPreRunE sampleEnv 0 sampleConfig).1).1.Claims.get "aud"
      = some (.strs ["https://fake-resource.solo.io"]) :=
  ⟨rfl,
    (reserved_claims_present sampleEnv sampleIdp 0 1700000000123456789 sampleConfig rfl).1,
    (reserved_claims_present sampleEnv sampleIdp 0 1700000000123456789 sampleConfig rfl).2.2.2.1
      rfl,
    (reserved_claims_present sampleEnv sampleIdp 0 1700000000123456789 sampleConfig rfl).2.2.2.2
      "https://fake-resource.solo.io" rfl⟩
/-- Counterexample to C9 as stated: for a parsed token whose header names
RS384 or RS512, methods other than RS256, the key-selection callback returns
the embedded public key, not the error `unexpected method`. -/
theorem rsa_family_counterexample :
    jwt.GetSigningMethod "RS384" = some .RS384 ∧
    jwt.SigningMethod.RS384 ≠ jwt.SigningMethod.RS256 ∧
    keyFunc sampleIdp
      (jwt.Token.mk "" .RS384 [("alg", .str "RS384"), ("typ", .str "JWT")] [] "" false)
      = .ok sampleIdp.GetRSAPublicKey ∧
    jwt.GetSigningMethod "RS512" = some .RS512 ∧
    keyFunc sampleIdp
      (jwt.Token.mk "" .RS512 [("alg", .str "RS512"), ("typ", .str "JWT")] [] "" false)
      = .ok sampleIdp.GetRSAPublicKey :=
  ⟨by decide, by decide, rfl, by decide, rfl⟩

theorem hs256Token_split :
    strings.Split hs256Token '.' =
      [jwt.EncodeSegment (sampleLib.jsonMarshal hs256Header),
        jwt.EncodeSegment (sampleLib.jsonMarshal MapClaims.empty),
        jwt.EncodeSegment (sampleBytes "mac")] :=
  split_three _ _ _ (encodeSegment_no_dot _) (encodeSegment_no_dot _) (encodeSegment_no_dot _)

theorem hs256TokenLineFeed_split :
    strings.Split hs256TokenLineFeed '.' =
      ["\n" ++ jwt.EncodeSegment (sampleLib.jsonMarshal hs256Header),
        jwt.EncodeSegment (sampleLib.jsonMarshal MapClaims.empty),
        jwt.EncodeSegment (sampleBytes "mac")] := by
  refine split_three _ _ _ ?_ (encodeSegment_no_dot _) (encodeSegment_no_dot _)
  intro h
  rw [String.data_append] at h
  rcases List.mem_append.mp h with h1 | h1
  · exact absurd h1 (by decide)
  · exact encodeSegment_no_dot _ h1

theorem decodeSegment_lineFeed (bs : List Byte) :
    jwt.DecodeSegment ("\n" ++ jwt.EncodeSegment bs) = some bs := by
  have h : jwt.DecodeSegment ("\n" ++ jwt.EncodeSegment bs)
      = jwt.DecodeSegment (jwt.EncodeSegment bs) := by
    simp only [jwt.DecodeSegment, String.data_append]
    rw [List.singleton_append, base64.decodeChars_skip_newline _ _ (Or.inl rfl)]
  rw [h, decode_encode_segment]

/-- Witness of the amended C9: a token whose header names HS256 is refused
with `unexpected method: HS256`, also when its header segment carries a line
feed, which the decoder skips. -/
theorem key_selection_by_method_family_witness :
    keyFunc sampleIdp (jwt.Token.mk hs256Token .HS256 hs256Header MapClaims.empty "" false)
      = .error "unexpected method: HS256" ∧
    parseSignedJwtString sampleLib sampleIdp 1700000000123456789 hs256Token
      = .error "unexpected method: HS256" ∧
    parseSignedJwtString sampleLib sampleIdp 1700000000123456789 hs256TokenLineFeed
      = .error "unexpected method: HS256" :=
  ⟨(key_selection_by_method_family sampleLib sampleIdp 1700000000123456789 hs256Token
      _ _ _ _ _ hs256Header MapClaims.empty .HS256 hs256Token_split
      (decode_encode_segment _) (sampleLib_json _) (decode_encode_segment _) (sampleLib_json _)
      rfl).1,
    (key_selection_by_method_family sampleLib sampleIdp 1700000000123456789 hs256Token
      _ _ _ _ _ hs256Header MapClaims.empty .HS256 hs256Token_split
      (decode_encode_segment _) (sampleLib_json _) (decode_encode_segment _) (sampleLib_json _)
      rfl).2 (by decide),
    (key_selection_by_method_family sampleLib sampleIdp 1700000000123456789 hs256TokenLineFeed
      _ _ _ _ _ hs256Header MapClaims.empty .HS256 hs256TokenLineFeed_split
      (decodeSegment_lineFeed _) (sampleLib_json _) (decode_encode_segment _) (sampleLib_json _)
      rfl).2 (by decide)⟩

/-- A token whose claims do not validate is refused when parsed back, whatever
the primitives. -/
theorem parse_signed_invalid (L : Lib) (idp : Idp) (hL : L.Lawful idp) (tok : jwt.Token)
    (hm : tok.Method = .RS256) (halg : tok.Header.get "alg" = some (.str "RS256"))
    (later : Int) (err : String)
    (hv : jwt.Valid tok.Claims (later / 1000000000) = some err) :
    ∃ s, tok.SignedString L idp.GetRSAPrivateKey = .ok s ∧
      parseSignedJwtString L idp later s = .error err := by
  obtain ⟨s, h', c', sig, hs, _, _, _, hparse⟩ := parse_signed L idp hL tok hm halg later
  rw [hv] at hparse
  exact ⟨s, hs, hparse⟩

/-- Counterexample to C10 as stated: the configuration `-p -e -1h` passes
validation, yet the token it yields has an expiry one hour in the past, so
parsing it back fails with `Token is expired`, for the reference primitives and
for every other choice of primitives that meets the assumptions. -/
theorem expired_token_counterexample :
    (PersistentPreRunE sampleEnv 0 expiredConfig).2 = .ok () ∧
    (getUnsignedJwt sampleIdp 1700000000000000000
        (PersistentPreRunE sampleEnv 0 expiredConfig).1).1.Claims.get "exp"
      = some (.int 1699996400) ∧
    RunE sampleLib sampleIdp 1700000000000000000 1700000000000000000
        (PersistentPreRunE sampleEnv 0 expiredConfig).1
      = .error "Token is expired" ∧
    ¬ ∃ L : Lib, L.Lawful sampleIdp ∧ ∃ s t,
        (getUnsignedJwt sampleIdp 1700000000000000000
            (PersistentPreRunE sampleEnv 0 expiredConfig).1).1.SignedString L
          sampleIdp.GetRSAPrivateKey = .ok s ∧
        parseSignedJwtString L sampleIdp 1700000000000000000 s = .ok t := by
  have hfail : ∀ L : Lib, L.Lawful sampleIdp → ∃ s,
      (getUnsignedJwt sampleIdp 1700000000000000000
          (PersistentPreRunE sampleEnv 0 expiredConfig).1).1.SignedString L
        sampleIdp.GetRSAPrivateKey = .ok s ∧
      parseSignedJwtString L sampleIdp 1700000000000000000 s = .error "Token is expired" :=
    fun L hL => parse_signed_invalid L sampleIdp hL
      (getUnsignedJwt sampleIdp 1700000000000000000
        (PersistentPreRunE sampleEnv 0 expiredConfig).1).1
      rfl rfl 1700000000000000000 "Token is expired" rfl
  refine ⟨rfl, rfl, ?_, ?_⟩
  · obtain ⟨s, hs, hp⟩ := hfail sampleLib sampleLib_lawful
    have hpp : (PersistentPreRunE sampleEnv 0 expiredConfig).1.PrettyPrint = true := rfl
    simp only [RunE, hs, hpp, hp, if_true]
  · rintro ⟨L, hL, s, t, hs, hp⟩
    obtain ⟨s', hs', hp'⟩ := hfail L hL
    rw [hs] at hs'
    injection hs' with e
    subst e
    rw [hp] at hp'
    exact absurd hp' (by simp)

/-- Witness of the amended C10 on `-c foo=bar -c baz=qux -c foo=again -s read
-s write -e 1h`, parsed back two seconds after it was built. -/
theorem token_round_trip_witness :
    (PersistentPreRunE sampleEnv 0 customConfig).2 = .ok () ∧
    ∃ s t p0 p1 p2,
      (getUnsignedJwt sampleIdp 1700000000123456789
          (PersistentPreRunE sampleEnv 0 customConfig).1).1.SignedString sampleLib
          sampleIdp.GetRSAPrivateKey = .ok s ∧
      parseSignedJwtString sampleLib sampleIdp 1700000002123456789 s = .ok t ∧
      t.Valid = true ∧
      MapClaims.Same t.Header (getUnsignedJwt sampleIdp 1700000000123456789
        (PersistentPreRunE sampleEnv 0 customConfig).1).1.Header ∧
      MapClaims.Same t.Claims (getUnsignedJwt sampleIdp 1700000000123456789
        (PersistentPreRunE sampleEnv 0 customConfig).1).1.Claims ∧
      strings.Split s '.' = [p0, p1, p2] ∧
      (∀ p ∈ [p0, p1, p2], ∀ c ∈ p.data, c ∈ base64.encodeURL ∧ c ≠ '=' ∧ c ≠ '.') :=
  ⟨rfl,
    token_round_trip sampleLib sampleEnv sampleIdp sampleLib_lawful 0 1700000000123456789
      1700000002123456789 3600000000000 customConfig rfl rfl rfl (by decide) (by decide)
      (by decide)⟩

/-- A user claim named `iat` is held as a string, which `VerifyIssuedAt`
refuses: the token of `-c iat=1` is not accepted when parsed back. -/
theorem issued_at_claim_refused :
    (PersistentPreRunE sampleEnv 0 issuedAtConfig).2 = .ok () ∧
    ∃ s, (getUnsignedJwt sampleIdp 1700000000000000000
            (PersistentPreRunE sampleEnv 0 issuedAtConfig).1).1.SignedString sampleLib
          sampleIdp.GetRSAPrivateKey = .ok s ∧
      parseSignedJwtString sampleLib sampleIdp 1700000000000000000 s
        = .error "Token used before issued" :=
  ⟨rfl, parse_signed_invalid sampleLib sampleIdp sampleLib_lawful
    (getUnsignedJwt sampleIdp 1700000000000000000
      (PersistentPreRunE sampleEnv 0 issuedAtConfig).1).1
    rfl rfl 1700000000000000000 "Token used before issued" rfl⟩

end JwtKit
